import Mathlib

/-!
Verification of `src/hmac_sha256.rs` (HMAC-SHA256 over SHA-256) against its
specification.

The Rust source provides: the bit-manipulation macros `S` (right rotation),
`R` (right shift), `Ch`, `Maj`, `SIGMA_0`, `SIGMA_1`, `sigma_0`, `sigma_1`,
and the constant tables `h` (initial hash value) and `k` (round constants)
inside `sha256`.  The bodies of `sha256`, `hmac` and `hmac_sha256` are
empty stubs (the spec, §9, notes this and declares the specified algorithm
authoritative), so the padding, compression loop, key normalization and
HMAC composition are modelled from the spec, faithful to its words; those
definitions carry a `Modelled from the spec:` doc comment.

Machine integers (`u32`, `u64`, bytes) are embedded as `Nat` with explicit
reduction `% 2^32` (resp. `% 2^64`, `% 2^8`) where wraparound matters.
Byte sequences are `List Nat` with every element `< 256`.
-/

namespace HmacSha256

/-- `2^32`, the modulus of all 32-bit wraparound arithmetic. -/
def M32 : Nat := 4294967296

/-- Addition of 32-bit words with wraparound, `a.wrapping_add(b)` on `u32`. -/
def add32 (a b : Nat) : Nat := (a + b) % M32

/-- The source macro `S!(x, n)`: `((x & 0xffffffff) >> n) | (x << (32-n))`
on `u32`, i.e. right rotation of `x` by `n` bits; the left shift truncates
to 32 bits as `u32` arithmetic does. -/
def S (x n : Nat) : Nat :=
  ((x &&& 0xffffffff) >>> n) ||| ((x <<< (32 - n)) % M32)

/-- The source macro `R!(x, n)`: `((x & 0xffffffff) >> n)`, the logical
(zero-fill) right shift of `x` by `n` bits. -/
def R (x n : Nat) : Nat :=
  (x &&& 0xffffffff) >>> n

/-- The source macro `Ch!(x, y, z)`: `(x & y) ^ (~x & z)`; the `u32`
complement `~x` is `0xffffffff ^ x` for `x < 2^32`. -/
def Ch (x y z : Nat) : Nat :=
  (x &&& y) ^^^ ((0xffffffff ^^^ x) &&& z)

/-- The source macro `Maj!(x, y, z)`: `(x & y) ^ (x & z) ^ (y & z)`. -/
def Maj (x y z : Nat) : Nat :=
  (x &&& y) ^^^ (x &&& z) ^^^ (y &&& z)

/-- The source macro `SIGMA_0!(x)`: `S!(x,2) ^ S!(x,13) ^ S!(x,22)`. -/
def SIGMA_0 (x : Nat) : Nat := S x 2 ^^^ S x 13 ^^^ S x 22

/-- The source macro `SIGMA_1!(x)`: `S!(x,6) ^ S!(x,11) ^ S!(x,25)`. -/
def SIGMA_1 (x : Nat) : Nat := S x 6 ^^^ S x 11 ^^^ S x 25

/-- The source macro `sigma_0!(x)`: `S!(x,7) ^ S!(x,18) ^ R!(x,3)`. -/
def sigma_0 (x : Nat) : Nat := S x 7 ^^^ S x 18 ^^^ R x 3

/-- The source macro `sigma_1!(x)`: `S!(x,17) ^ S!(x,19) ^ R!(x,10)`. -/
def sigma_1 (x : Nat) : Nat := S x 17 ^^^ S x 19 ^^^ R x 10

/-- The spec's `rotr(x, n)`: circular right rotation of a 32-bit value by
`n` bits — the high `32 - n` bits of the result are `x` shifted right and
the low `n` bits of `x` wrap around to the top.  Written from the spec's
words, independently of the source macro `S`, for comparison with it. -/
def rotr (x n : Nat) : Nat :=
  (x >>> n) ||| ((x % 2 ^ n) <<< (32 - n))

/-- The array `h` initialized in `sha256` (`src/hmac_sha256.rs:66-75`):
the initial hash value `H0..H7`. -/
def hInit : List Nat :=
  [0x6a09e667, 0xbb67ae85, 0x3c6ef372, 0xa54ff53a,
   0x510e527f, 0x9b05688c, 0x1f83d9ab, 0x5be0cd19]

/-- The array `k` initialized in `sha256` (`src/hmac_sha256.rs:79-88`):
the 64 round constants. -/
def kRound : List Nat :=
  [0x428A2F98, 0x71374491, 0xB5C0FBCF, 0xE9B5DBA5, 0x3956C25B, 0x59F111F1, 0x923F82A4, 0xAB1C5ED5,
   0xD807AA98, 0x12835B01, 0x243185BE, 0x550C7DC3, 0x72BE5D74, 0x80DEB1FE, 0x9BDC06A7, 0xC19BF174,
   0xE49B69C1, 0xEFBE4786, 0x0FC19DC6, 0x240CA1CC, 0x2DE92C6F, 0x4A7484AA, 0x5CB0A9DC, 0x76F988DA,
   0x983E5152, 0xA831C66D, 0xB00327C8, 0xBF597FC7, 0xC6E00BF3, 0xD5A79147, 0x06CA6351, 0x14292967,
   0x27B70A85, 0x2E1B2138, 0x4D2C6DFC, 0x53380D13, 0x650A7354, 0x766A0ABB, 0x81C2C92E, 0x92722C85,
   0xA2BFE8A1, 0xA81A664B, 0xC24B8B70, 0xC76C51A3, 0xD192E819, 0xD6990624, 0xF40E3585, 0x106AA070,
   0x19A4C116, 0x1E376C08, 0x2748774C, 0x34B0BCB5, 0x391C0CB3, 0x4ED8AA4A, 0x5B9CCA4F, 0x682E6FF3,
   0x748F82EE, 0x78A5636F, 0x84C87814, 0x8CC70208, 0x90BEFFFA, 0xA4506CEB, 0xBEF9A3F7, 0xC67178F2]

/-- The first 64 primes, used to state the FIPS 180-4 pedigree of the
constant tables: the round constants are the first 32 bits of the
fractional parts of the cube roots of these primes, and the initial hash
value comes likewise from the square roots of the first eight. -/
def first64Primes : List Nat :=
  [2, 3, 5, 7, 11, 13, 17, 19, 23, 29, 31, 37, 41, 43, 47, 53,
   59, 61, 67, 71, 73, 79, 83, 89, 97, 101, 103, 107, 109, 113, 127, 131,
   137, 139, 149, 151, 157, 163, 167, 173, 179, 181, 191, 193, 197, 199, 211, 223,
   227, 229, 233, 239, 241, 251, 257, 263, 269, 271, 277, 281, 283, 293, 307, 311]

/-- The value of a byte list read as a big-endian unsigned integer. -/
def beVal (bs : List Nat) : Nat :=
  bs.foldl (fun acc b => 256 * acc + b) 0

/-- Modelled from the spec: the 64-bit big-endian encoding of the message
bit length `L` appended by the padding step (`sha256`'s body is an empty
stub). -/
def lenBytes (L : Nat) : List Nat :=
  [(L >>> 56) &&& 0xff, (L >>> 48) &&& 0xff, (L >>> 40) &&& 0xff, (L >>> 32) &&& 0xff,
   (L >>> 24) &&& 0xff, (L >>> 16) &&& 0xff, (L >>> 8) &&& 0xff, L &&& 0xff]

/-- Modelled from the spec: the number of zero bytes the padding step
inserts after the `0x80` byte so that the padded length is `56 mod 64`
bytes before the 8-byte length field. -/
def padZeros (n : Nat) : Nat := (64 + 56 - (n + 1) % 64) % 64

/-- Modelled from the spec: SHA-256 preprocessing (padding) of a
byte-aligned message (`sha256`'s body is an empty stub): append the byte
`0x80` (a `1` bit then seven `0` bits), then the minimal number of zero
bytes, then the bit length as a 64-bit big-endian integer. -/
def padMsg (msg : List Nat) : List Nat :=
  msg ++ [0x80] ++ List.replicate (padZeros msg.length) 0 ++ lenBytes (8 * msg.length)

/-- Big-endian packing of bytes into 32-bit words, 4 bytes per word. -/
def bytesToWords : List Nat → List Nat
  | b0 :: b1 :: b2 :: b3 :: rest =>
      (b0 <<< 24 ||| b1 <<< 16 ||| b2 <<< 8 ||| b3) :: bytesToWords rest
  | _ => []

/-- Big-endian serialization of 32-bit words to bytes, 4 bytes per word. -/
def wordsToBytes : List Nat → List Nat
  | [] => []
  | w :: ws =>
      ((w >>> 24) &&& 0xff) :: ((w >>> 16) &&& 0xff) :: ((w >>> 8) &&& 0xff) :: (w &&& 0xff) ::
        wordsToBytes ws

/-- Modelled from the spec: one step of the message-schedule extension,
producing `sigma1(w[t-2]) + w[t-7] + sigma0(w[t-15]) + w[t-16]` (mod 2^32)
from the already-computed words held most-recent-first. -/
def nextW (ws : List Nat) : Nat :=
  add32 (add32 (sigma_1 (ws.getD 1 0)) (ws.getD 6 0))
        (add32 (sigma_0 (ws.getD 14 0)) (ws.getD 15 0))

/-- Iterates `nextW`, consing each new schedule word onto the accumulator. -/
def scheduleAux : Nat → List Nat → List Nat
  | 0, ws => ws
  | n + 1, ws => scheduleAux n (nextW ws :: ws)

/-- Modelled from the spec: the 64-word message schedule of one 512-bit
block (given as 16 words), extended from the block's 16 words by the
`sigma_0`/`sigma_1` recurrence. -/
def schedule (blk : List Nat) : List Nat :=
  (scheduleAux 48 (blk.take 16).reverse).reverse

/-- The eight 32-bit working variables `a..h` of the compression loop. -/
structure Regs where
  a : Nat
  b : Nat
  c : Nat
  d : Nat
  e : Nat
  f : Nat
  g : Nat
  h : Nat

/-- Reads the eight working variables from a hash-state list. -/
def regsOfList (hs : List Nat) : Regs :=
  ⟨hs.getD 0 0, hs.getD 1 0, hs.getD 2 0, hs.getD 3 0,
   hs.getD 4 0, hs.getD 5 0, hs.getD 6 0, hs.getD 7 0⟩

/-- The eight working variables as a hash-state list. -/
def regsToList (r : Regs) : List Nat :=
  [r.a, r.b, r.c, r.d, r.e, r.f, r.g, r.h]

/-- Modelled from the spec: one round `t` of the compression loop, given
`(K[t], w[t])`: `T1 = h + SIGMA1(e) + Ch(e,f,g) + K[t] + w[t]`,
`T2 = SIGMA0(a) + Maj(a,b,c)`, then the register rotation, mod 2^32. -/
def roundStep (r : Regs) (kw : Nat × Nat) : Regs :=
  let T1 := (r.h + SIGMA_1 r.e + Ch r.e r.f r.g + kw.1 + kw.2) % M32
  let T2 := (SIGMA_0 r.a + Maj r.a r.b r.c) % M32
  { a := add32 T1 T2, b := r.a, c := r.b, d := r.c,
    e := add32 r.d T1, f := r.e, g := r.f, h := r.g }

/-- Modelled from the spec: the compression of one 512-bit block (16
words) into the running hash state: 64 rounds from the schedule and round
constants, then adding the working variables back in mod 2^32. -/
def compress (hs : List Nat) (blk : List Nat) : List Nat :=
  let final := (kRound.zip (schedule blk)).foldl roundStep (regsOfList hs)
  List.zipWith add32 hs (regsToList final)

/-- Folds `compress` over the first `n` 16-word blocks of `ws`. -/
def hashBlocks : Nat → List Nat → List Nat → List Nat
  | 0, _, hs => hs
  | n + 1, ws, hs => hashBlocks n (ws.drop 16) (compress hs (ws.take 16))

/-- Modelled from the spec: the full SHA-256 digest computation (32 bytes)
of a byte message — padding, block-wise compression from `hInit`, and
big-endian serialization of the final 8 words.  `sha256`'s body in the
source is an empty stub; this is the spec's algorithm. -/
def sha256Bytes (msg : List Nat) : List Nat :=
  let ws := bytesToWords (padMsg msg)
  wordsToBytes (hashBlocks (ws.length / 16) ws hInit)

/-- The error taxonomy of the spec (§7): `InputTooLarge` is the only
error. -/
inductive HmacError where
  | InputTooLarge
deriving DecidableEq, Repr

/-- Modelled from the spec: the `hash` contract of `Sha256Engine` —
succeeds with the 32-byte digest whenever the message bit length fits in
64 bits, and fails with `InputTooLarge` (no partial result) otherwise. -/
def sha256 (msg : List Nat) : Except HmacError (List Nat) :=
  if 8 * msg.length < 2 ^ 64 then .ok (sha256Bytes msg) else .error .InputTooLarge

/-- The HMAC block size `B = 64` bytes. -/
def B : Nat := 64

/-- The inner padding: the byte `0x36` repeated `B` times. -/
def ipad : List Nat := List.replicate B 0x36

/-- The outer padding: the byte `0x5c` repeated `B` times. -/
def opad : List Nat := List.replicate B 0x5c

/-- Modelled from the spec: HMAC key normalization to the 64-byte block
`K0` (`hmac`'s body is an empty stub): keep a 64-byte key, hash-then-pad a
longer key, zero-pad a shorter key. -/
def normKey (key : List Nat) : List Nat :=
  if key.length = B then key
  else if B < key.length then sha256Bytes key ++ List.replicate (B - 32) 0
  else key ++ List.replicate (B - key.length) 0

/-- Byte-wise XOR of two byte sequences. -/
def xorBytes (xs ys : List Nat) : List Nat :=
  List.zipWith (fun a b => a ^^^ b) xs ys

/-- Modelled from the spec: the HMAC composition
`H((K0 ⊕ opad) || H((K0 ⊕ ipad) || text))` on normalized key block `K0`,
with both hashes unchecked (pure 32-byte outputs). -/
def hmacBytes (key text : List Nat) : List Nat :=
  let K0 := normKey key
  sha256Bytes (xorBytes K0 opad ++ sha256Bytes (xorBytes K0 ipad ++ text))

/-- Modelled from the spec: checked key normalization — hashing a
longer-than-block key goes through `sha256`, whose `InputTooLarge` failure
propagates. -/
def normKeyChecked (key : List Nat) : Except HmacError (List Nat) :=
  if key.length = B then Except.ok key
  else if B < key.length then
    match sha256 key with
    | .ok d => Except.ok (d ++ List.replicate (B - 32) 0)
    | .error e => Except.error e
  else Except.ok (key ++ List.replicate (B - key.length) 0)

/-- Modelled from the spec: `hmac_sha256` (an empty stub in the source) —
the checked HMAC computation, propagating `InputTooLarge` from each
`sha256` call (key normalization may hash the key; the inner and outer
hashes run over the padded key block concatenations). -/
def hmac_sha256 (key text : List Nat) : Except HmacError (List Nat) :=
  match normKeyChecked key with
  | .error e => Except.error e
  | .ok K0 =>
    match sha256 (xorBytes K0 ipad ++ text) with
    | .error e => Except.error e
    | .ok inner => sha256 (xorBytes K0 opad ++ inner)

/-! ### Arithmetic and length lemmas -/

/-- Masking with `0xffffffff` is reduction mod `2^32`. -/
theorem and_mask32 (x : Nat) : x &&& 0xffffffff = x % M32 := by
  simpa [M32] using Nat.and_pow_two_sub_one_eq_mod x 32

/-- Masking with `0xff` is reduction mod `256`. -/
theorem and_mask8 (x : Nat) : x &&& 0xff = x % 256 :=
  Nat.and_pow_two_sub_one_eq_mod x 8

/-- Two-level `add32` flattens to a single sum mod `2^32`. -/
theorem add32_add32 (a b c d : Nat) :
    add32 (add32 a b) (add32 c d) = (a + b + c + d) % M32 := by
  show ((a + b) % M32 + (c + d) % M32) % M32 = (a + b + c + d) % M32
  rw [← Nat.add_mod]
  congr 1
  omega

/-- The source macro `S` computes the spec's circular right rotation on
32-bit values, for any rotation amount up to the word size. -/
theorem S_eq_rotr (x n : Nat) (hx : x < M32) (hn : n ≤ 32) : S x n = rotr x n := by
  unfold S rotr
  rw [and_mask32, Nat.mod_eq_of_lt hx]
  congr 1
  rw [Nat.shiftLeft_eq, Nat.shiftLeft_eq]
  have h32 : M32 = 2 ^ n * 2 ^ (32 - n) := by
    rw [← pow_add]
    have hnn : n + (32 - n) = 32 := by omega
    rw [hnn]
    rfl
  rw [h32, Nat.mul_mod_mul_right]

/-- The source macro `R` computes the logical right shift on 32-bit
values. -/
theorem R_eq_shiftRight (x n : Nat) (hx : x < M32) : R x n = x >>> n := by
  unfold R
  rw [and_mask32, Nat.mod_eq_of_lt hx]

/-- `xorBytes` has the length of the shorter input. -/
theorem length_xorBytes (xs ys : List Nat) :
    (xorBytes xs ys).length = min xs.length ys.length := by
  simp [xorBytes]

/-- `ipad` is 64 bytes long. -/
theorem length_ipad : ipad.length = 64 := by simp [ipad, B]

/-- `opad` is 64 bytes long. -/
theorem length_opad : opad.length = 64 := by simp [opad, B]

/-- Serializing words to bytes quadruples the length. -/
theorem length_wordsToBytes : ∀ ws : List Nat, (wordsToBytes ws).length = 4 * ws.length
  | [] => rfl
  | w :: ws => by
      simp [wordsToBytes, length_wordsToBytes ws]
      ring

/-- One block of compression preserves the 8-word hash state. -/
theorem length_compress (hs blk : List Nat) (h : hs.length = 8) :
    (compress hs blk).length = 8 := by
  simp [compress, regsToList, h]

/-- Any number of compression rounds preserves the 8-word hash state. -/
theorem length_hashBlocks : ∀ (n : Nat) (ws hs : List Nat), hs.length = 8 →
    (hashBlocks n ws hs).length = 8
  | 0, _, _, h => h
  | n + 1, ws, hs, h => length_hashBlocks n (ws.drop 16) _ (length_compress hs (ws.take 16) h)

/-- A SHA-256 digest is 32 bytes. -/
theorem length_sha256Bytes (msg : List Nat) : (sha256Bytes msg).length = 32 := by
  have h8 : hInit.length = 8 := rfl
  rw [sha256Bytes, length_wordsToBytes,
    length_hashBlocks ((bytesToWords (padMsg msg)).length / 16) _ _ h8]

/-- The normalized key block is 64 bytes. -/
theorem length_normKey (key : List Nat) : (normKey key).length = 64 := by
  unfold normKey
  split
  · next h => simpa [B] using h
  · split
    · simp [length_sha256Bytes, B]
    · next h1 h2 =>
        simp only [B] at h1 h2
        simp [B]
        omega

/-- An HMAC MAC is 32 bytes. -/
theorem length_hmacBytes (key text : List Nat) : (hmacBytes key text).length = 32 :=
  length_sha256Bytes _

/-- `sha256` succeeds when the bit length fits in 64 bits. -/
theorem sha256_eq_ok (msg : List Nat) (h : 8 * msg.length < 2 ^ 64) :
    sha256 msg = Except.ok (sha256Bytes msg) := by
  unfold sha256
  rw [if_pos h]

/-- `sha256` fails with `InputTooLarge` when the bit length does not fit
in 64 bits. -/
theorem sha256_eq_err (msg : List Nat) (h : ¬ 8 * msg.length < 2 ^ 64) :
    sha256 msg = Except.error HmacError.InputTooLarge := by
  unfold sha256
  rw [if_neg h]

/-- The inner/outer double hash of HMAC on a 64-byte key block: succeeds
with the composed digest exactly when the inner message's bit length fits
in 64 bits (the outer message is always 96 bytes). -/
theorem hmac_tail_eq (K0 text : List Nat) (h64 : K0.length = 64) :
    (match sha256 (xorBytes K0 ipad ++ text) with
     | .error e => Except.error e
     | .ok inner => sha256 (xorBytes K0 opad ++ inner)) =
    if 8 * (64 + text.length) < 2 ^ 64 then
      Except.ok (sha256Bytes (xorBytes K0 opad ++ sha256Bytes (xorBytes K0 ipad ++ text)))
    else Except.error HmacError.InputTooLarge := by
  have hlen : (xorBytes K0 ipad ++ text).length = 64 + text.length := by
    simp [length_xorBytes, h64, length_ipad]
  by_cases h2 : 8 * (64 + text.length) < 2 ^ 64
  · rw [sha256_eq_ok _ (by rw [hlen]; exact h2), if_pos h2]
    have hlen2 : (xorBytes K0 opad ++ sha256Bytes (xorBytes K0 ipad ++ text)).length = 96 := by
      simp [length_xorBytes, h64, length_opad, length_sha256Bytes]
    exact sha256_eq_ok _ (by rw [hlen2]; norm_num)
  · rw [sha256_eq_err _ (by rw [hlen]; exact h2), if_neg h2]

/-- Checked key normalization succeeds with the pure `normKey` exactly
when the key's bit length fits in 64 bits. -/
theorem normKeyChecked_eq (key : List Nat) :
    normKeyChecked key =
      if 8 * key.length < 2 ^ 64 then Except.ok (normKey key)
      else Except.error HmacError.InputTooLarge := by
  unfold normKeyChecked normKey
  by_cases h1 : key.length = B
  · have hb : 8 * key.length < 2 ^ 64 := by
      simp only [B] at h1
      omega
    rw [if_pos h1, if_pos h1, if_pos hb]
  · by_cases h2 : B < key.length
    · rw [if_neg h1, if_neg h1, if_pos h2, if_pos h2]
      by_cases hb : 8 * key.length < 2 ^ 64
      · rw [sha256_eq_ok _ hb, if_pos hb]
      · rw [sha256_eq_err _ hb, if_neg hb]
    · have hb : 8 * key.length < 2 ^ 64 := by
        simp only [B, not_lt] at h2
        omega
      rw [if_neg h1, if_neg h1, if_neg h2, if_neg h2, if_pos hb]

/-- Full characterization of the checked HMAC: it succeeds with the pure
`hmacBytes` exactly when both the key and the inner hash input fit the
64-bit length bound, and fails with `InputTooLarge` otherwise. -/
theorem hmac_sha256_eq (key text : List Nat) :
    hmac_sha256 key text =
      if 8 * key.length < 2 ^ 64 ∧ 8 * (64 + text.length) < 2 ^ 64 then
        Except.ok (hmacBytes key text)
      else Except.error HmacError.InputTooLarge := by
  unfold hmac_sha256
  rw [normKeyChecked_eq]
  by_cases h1 : 8 * key.length < 2 ^ 64
  · rw [if_pos h1]
    have ht := hmac_tail_eq (normKey key) text (length_normKey key)
    refine ht.trans ?_
    by_cases h2 : 8 * (64 + text.length) < 2 ^ 64
    · rw [if_pos h2, if_pos ⟨h1, h2⟩]
      rfl
    · rw [if_neg h2, if_neg (by tauto)]
  · rw [if_neg h1, if_neg (by tauto)]

/-! ### Message-schedule lemmas -/

/-- `scheduleAux` adds one word per step. -/
theorem length_scheduleAux : ∀ (n : Nat) (ws : List Nat),
    (scheduleAux n ws).length = n + ws.length
  | 0, _ => by simp [scheduleAux]
  | n + 1, ws => by
      show (scheduleAux n (nextW ws :: ws)).length = n + 1 + ws.length
      rw [length_scheduleAux n]
      simp only [List.length_cons]
      omega

/-- Every word of a `scheduleAux` accumulator beyond the seed satisfies
the `nextW` recurrence over the words after it (the accumulator holds the
schedule most-recent-first). -/
theorem scheduleAux_getD : ∀ (n : Nat) (ws : List Nat),
    (∀ j, j + 16 < ws.length → ws.getD j 0 = nextW (ws.drop (j + 1))) →
    ∀ j, j + 16 < (scheduleAux n ws).length →
      (scheduleAux n ws).getD j 0 = nextW ((scheduleAux n ws).drop (j + 1))
  | 0, _, h => h
  | n + 1, ws, h => by
      refine scheduleAux_getD n (nextW ws :: ws) ?_
      intro j hj
      match j with
      | 0 => rfl
      | j' + 1 =>
          rw [List.getD_cons_succ, List.drop_succ_cons]
          refine h j' ?_
          simp only [List.length_cons] at hj
          omega

/-- `getD` at an in-range index of a reversed list reads the mirrored
index of the original. -/
theorem getD_reverse (l : List Nat) (i : Nat) (h : i < l.length) :
    l.reverse.getD i 0 = l.getD (l.length - 1 - i) 0 := by
  have h1 : i < l.reverse.length := by simpa using h
  rw [List.getD_eq_getElem _ _ h1, List.getD_eq_getElem _ _ (by omega)]
  exact List.getElem_reverse h1

/-- `getD` at an in-range index of a dropped list reads the shifted index
of the original. -/
theorem getD_drop (l : List Nat) (m i : Nat) (h : m + i < l.length) :
    (l.drop m).getD i 0 = l.getD (m + i) 0 := by
  have h1 : i < (l.drop m).length := by
    simp only [List.length_drop]
    omega
  rw [List.getD_eq_getElem _ _ h1, List.getD_eq_getElem _ _ h]
  exact List.getElem_drop l

/-- The schedule of a 16-word block has 64 words. -/
theorem length_schedule (blk : List Nat) (hb : blk.length = 16) :
    (schedule blk).length = 64 := by
  simp [schedule, length_scheduleAux, hb]

/-! ### Claim theorems -/

set_option maxRecDepth 200000

/-- C2: the SHA-256 hash operation maps the empty byte sequence to the
digest `e3b0c44298fc1c149afbf4c8996fb92427ae41e4649b934ca495991b7852b855`
and the three-byte ASCII message "abc" to the digest
`ba7816bf8f01cfea414140de5dae2223b00361a396177a9cb410ff61f20015ad`. -/
theorem sha256_known_vectors :
    sha256Bytes [] =
      [0xe3, 0xb0, 0xc4, 0x42, 0x98, 0xfc, 0x1c, 0x14, 0x9a, 0xfb, 0xf4, 0xc8, 0x99, 0x6f, 0xb9, 0x24,
       0x27, 0xae, 0x41, 0xe4, 0x64, 0x9b, 0x93, 0x4c, 0xa4, 0x95, 0x99, 0x1b, 0x78, 0x52, 0xb8, 0x55]
    ∧ sha256Bytes [0x61, 0x62, 0x63] =
      [0xba, 0x78, 0x16, 0xbf, 0x8f, 0x01, 0xcf, 0xea, 0x41, 0x41, 0x40, 0xde, 0x5d, 0xae, 0x22, 0x23,
       0xb0, 0x03, 0x61, 0xa3, 0x96, 0x17, 0x7a, 0x9c, 0xb4, 0x10, 0xff, 0x61, 0xf2, 0x00, 0x15, 0xad] :=
  ⟨by decide, by decide⟩

/-- C7: with the key of 20 `0x0b` bytes and the message "Hi There"
(RFC 4231 test case 1), HMAC-SHA256 returns the 32-byte MAC
`b0344c61d8db38535ca8afceaf0bf12b881dc200c9833da726e9376c2e32cff7`,
both as the pure computation and through the checked entry point. -/
theorem hmac_rfc4231_case1 :
    hmacBytes (List.replicate 20 0x0b) [0x48, 0x69, 0x20, 0x54, 0x68, 0x65, 0x72, 0x65] =
      [0xb0, 0x34, 0x4c, 0x61, 0xd8, 0xdb, 0x38, 0x53, 0x5c, 0xa8, 0xaf, 0xce, 0xaf, 0x0b, 0xf1, 0x2b,
       0x88, 0x1d, 0xc2, 0x00, 0xc9, 0x83, 0x3d, 0xa7, 0x26, 0xe9, 0x37, 0x6c, 0x2e, 0x32, 0xcf, 0xf7]
    ∧ hmac_sha256 (List.replicate 20 0x0b) [0x48, 0x69, 0x20, 0x54, 0x68, 0x65, 0x72, 0x65] =
      Except.ok
      [0xb0, 0x34, 0x4c, 0x61, 0xd8, 0xdb, 0x38, 0x53, 0x5c, 0xa8, 0xaf, 0xce, 0xaf, 0x0b, 0xf1, 0x2b,
       0x88, 0x1d, 0xc2, 0x00, 0xc9, 0x83, 0x3d, 0xa7, 0x26, 0xe9, 0x37, 0x6c, 0x2e, 0x32, 0xcf, 0xf7] :=
  ⟨by decide, by rfl⟩

/-- C5: padding appends the byte `0x80` (a single `1` bit, then seven of
the zero bits), then the minimal number of zero bits reaching
`448 mod 512`, then the bit length as a 64-bit big-endian integer, and
the padded length is a positive multiple of 512 bits. -/
theorem sha256_padding (msg : List Nat) :
    padMsg msg =
      msg ++ [0x80] ++ List.replicate (padZeros msg.length) 0 ++ lenBytes (8 * msg.length)
    ∧ (8 * msg.length + 1 + (7 + 8 * padZeros msg.length)) % 512 = 448
    ∧ (∀ kbits, (8 * msg.length + 1 + kbits) % 512 = 448 → 7 + 8 * padZeros msg.length ≤ kbits)
    ∧ (lenBytes (8 * msg.length)).length = 8
    ∧ beVal (lenBytes (8 * msg.length)) = (8 * msg.length) % 2 ^ 64
    ∧ (8 * (padMsg msg).length) % 512 = 0
    ∧ 0 < (padMsg msg).length := by
  refine ⟨rfl, ?_, ?_, rfl, ?_, ?_, ?_⟩
  · simp only [padZeros]
    omega
  · intro kbits hk
    simp only [padZeros]
    omega
  · simp only [beVal, lenBytes, List.foldl, and_mask8, Nat.shiftRight_eq_div_pow]
    omega
  · simp only [padMsg, padZeros, lenBytes, List.length_append, List.length_cons,
      List.length_nil, List.length_replicate]
    omega
  · simp only [padMsg, List.length_append, List.length_cons, List.length_nil]
    omega

/-- C1: for every key and message within the 64-bit length bound, the
HMAC computation returns
`Sha256Engine.hash((K0 XOR opad) || Sha256Engine.hash((K0 XOR ipad) || message))`,
with `K0` the normalized 64-byte key block, `ipad` the byte `0x36`
repeated 64 times, `opad` the byte `0x5c` repeated 64 times, and XOR
applied byte-wise. -/
theorem hmac_double_hash_composition (key text : List Nat)
    (hk : 8 * key.length < 2 ^ 64) (ht : 8 * (64 + text.length) < 2 ^ 64) :
    hmac_sha256 key text =
      Except.ok (sha256Bytes (xorBytes (normKey key) opad ++
        sha256Bytes (xorBytes (normKey key) ipad ++ text))) := by
  rw [hmac_sha256_eq, if_pos ⟨hk, ht⟩]
  rfl

/-- Witness for C1 at the RFC 4231 key and a two-byte message. -/
theorem hmac_double_hash_composition_witness :
    hmac_sha256 (List.replicate 20 0x0b) [0x48, 0x69] =
      Except.ok (sha256Bytes (xorBytes (normKey (List.replicate 20 0x0b)) opad ++
        sha256Bytes (xorBytes (normKey (List.replicate 20 0x0b)) ipad ++ [0x48, 0x69]))) :=
  hmac_double_hash_composition (List.replicate 20 0x0b) [0x48, 0x69] (by decide) (by decide)

/-- C3: every SHA-256 digest is exactly 32 bytes, every MAC is exactly 32
bytes, and the MAC is the untruncated outer digest. -/
theorem digest_and_mac_are_32_bytes (msg key text : List Nat) :
    (sha256Bytes msg).length = 32
    ∧ (hmacBytes key text).length = 32
    ∧ hmacBytes key text =
        sha256Bytes (xorBytes (normKey key) opad ++
          sha256Bytes (xorBytes (normKey key) ipad ++ text)) :=
  ⟨length_sha256Bytes msg, length_hmacBytes key text, rfl⟩

/-- C4: key normalization keeps a 64-byte key, hashes-then-pads a longer
key, zero-pads a shorter key, and always yields exactly 64 bytes. -/
theorem key_normalization (key : List Nat) :
    (key.length = 64 → normKey key = key)
    ∧ (64 < key.length → normKey key = sha256Bytes key ++ List.replicate 32 0)
    ∧ (key.length < 64 → normKey key = key ++ List.replicate (64 - key.length) 0)
    ∧ (normKey key).length = 64 := by
  refine ⟨?_, ?_, ?_, length_normKey key⟩
  · intro h
    unfold normKey
    rw [if_pos (show key.length = B from h)]
  · intro h
    unfold normKey
    rw [if_neg (show ¬key.length = B by simp only [B]; omega),
      if_pos (show B < key.length from h)]
    rfl
  · intro h
    unfold normKey
    rw [if_neg (show ¬key.length = B by simp only [B]; omega),
      if_neg (show ¬B < key.length by simp only [B]; omega)]
    rfl

/-- C6: over any 512-bit block, the message schedule satisfies
`w[t] = sigma1(w[t-2]) + w[t-7] + sigma0(w[t-15]) + w[t-16]` mod 2^32 for
`t` in `16..64`, where on 32-bit values the source macros give
`sigma0(x) = rotr(x,7) ^ rotr(x,18) ^ (x >> 3)` and
`sigma1(x) = rotr(x,17) ^ rotr(x,19) ^ (x >> 10)` with circular
right-rotate and logical zero-fill right-shift. -/
theorem message_schedule_recurrence (blk : List Nat) (t : Nat)
    (hb : blk.length = 16) (h1 : 16 ≤ t) (h2 : t < 64) :
    ((schedule blk).getD t 0 =
      (sigma_1 ((schedule blk).getD (t - 2) 0) + (schedule blk).getD (t - 7) 0 +
        sigma_0 ((schedule blk).getD (t - 15) 0) + (schedule blk).getD (t - 16) 0) % M32)
    ∧ (∀ x, x < M32 →
        sigma_0 x = rotr x 7 ^^^ rotr x 18 ^^^ x >>> 3 ∧
        sigma_1 x = rotr x 17 ^^^ rotr x 19 ^^^ x >>> 10) := by
  constructor
  · have hAlen : (scheduleAux 48 (blk.take 16).reverse).length = 64 := by
      rw [length_scheduleAux]
      simp [hb]
    have hinv := scheduleAux_getD 48 (blk.take 16).reverse (by
      intro j hj
      simp only [List.length_reverse, List.length_take, hb] at hj
      omega)
    have e2 : ∀ x, x < 64 → (scheduleAux 48 (blk.take 16).reverse).getD x 0 =
        (schedule blk).getD (63 - x) 0 := by
      intro x hx
      rw [schedule, getD_reverse _ (63 - x) (by omega), hAlen]
      congr 1
      omega
    have e1 : (schedule blk).getD t 0 = (scheduleAux 48 (blk.take 16).reverse).getD (63 - t) 0 := by
      rw [schedule, getD_reverse _ t (by omega), hAlen]
    rw [e1, hinv (63 - t) (by omega)]
    show add32 (add32 _ _) (add32 _ _) = _
    rw [add32_add32,
      getD_drop _ (63 - t + 1) 1 (by omega), getD_drop _ (63 - t + 1) 6 (by omega),
      getD_drop _ (63 - t + 1) 14 (by omega), getD_drop _ (63 - t + 1) 15 (by omega),
      e2 (63 - t + 1 + 1) (by omega), e2 (63 - t + 1 + 6) (by omega),
      e2 (63 - t + 1 + 14) (by omega), e2 (63 - t + 1 + 15) (by omega),
      show 63 - (63 - t + 1 + 1) = t - 2 by omega, show 63 - (63 - t + 1 + 6) = t - 7 by omega,
      show 63 - (63 - t + 1 + 14) = t - 15 by omega,
      show 63 - (63 - t + 1 + 15) = t - 16 by omega]
  · intro x hx
    constructor
    · show S x 7 ^^^ S x 18 ^^^ R x 3 = _
      rw [S_eq_rotr x 7 hx (by norm_num), S_eq_rotr x 18 hx (by norm_num),
        R_eq_shiftRight x 3 hx]
    · show S x 17 ^^^ S x 19 ^^^ R x 10 = _
      rw [S_eq_rotr x 17 hx (by norm_num), S_eq_rotr x 19 hx (by norm_num),
        R_eq_shiftRight x 10 hx]

/-- Witness for C6 at the block `0, 1, ..., 15` and `t = 16`. -/
theorem message_schedule_recurrence_witness :
    ((schedule (List.range 16)).getD 16 0 =
      (sigma_1 ((schedule (List.range 16)).getD (16 - 2) 0) +
        (schedule (List.range 16)).getD (16 - 7) 0 +
        sigma_0 ((schedule (List.range 16)).getD (16 - 15) 0) +
        (schedule (List.range 16)).getD (16 - 16) 0) % M32)
    ∧ (∀ x, x < M32 →
        sigma_0 x = rotr x 7 ^^^ rotr x 18 ^^^ x >>> 3 ∧
        sigma_1 x = rotr x 17 ^^^ rotr x 19 ^^^ x >>> 10) :=
  message_schedule_recurrence (List.range 16) 16 (by decide) (by decide) (by decide)

/-- C8: for a key longer than 64 bytes, HMAC under that key agrees with
HMAC under the 64-byte block `SHA256(key) || zeros`, both for the pure
computation and (within the length bound) for the checked entry point. -/
theorem long_key_equivalence (key text : List Nat) (hk : 64 < key.length) :
    hmacBytes key text = hmacBytes (sha256Bytes key ++ List.replicate 32 0) text
    ∧ (8 * key.length < 2 ^ 64 →
        hmac_sha256 key text = hmac_sha256 (sha256Bytes key ++ List.replicate 32 0) text) := by
  have hlenB : (sha256Bytes key ++ List.replicate 32 0).length = B := by
    simp [length_sha256Bytes, B]
  have hn : normKey (sha256Bytes key ++ List.replicate 32 0) =
      sha256Bytes key ++ List.replicate 32 0 := by
    unfold normKey
    rw [if_pos hlenB]
  have hn2 : normKey key = sha256Bytes key ++ List.replicate 32 0 := by
    unfold normKey
    rw [if_neg (show ¬key.length = B by simp only [B]; omega),
      if_pos (show B < key.length from hk)]
    rfl
  have hpure : hmacBytes key text = hmacBytes (sha256Bytes key ++ List.replicate 32 0) text := by
    unfold hmacBytes
    rw [hn, hn2]
  refine ⟨hpure, fun hb => ?_⟩
  have hlen64 : (sha256Bytes key ++ List.replicate 32 0).length = 64 := by
    simp [length_sha256Bytes]
  rw [hmac_sha256_eq, hmac_sha256_eq, hpure, hlen64]
  by_cases h2 : 8 * (64 + text.length) < 2 ^ 64
  · rw [if_pos ⟨hb, h2⟩, if_pos ⟨by norm_num, h2⟩]
  · rw [if_neg (by tauto), if_neg (by tauto)]

/-- Witness for C8 at a 65-byte key and a three-byte message. -/
theorem long_key_equivalence_witness :
    hmacBytes (List.replicate 65 0) [1, 2, 3] =
      hmacBytes (sha256Bytes (List.replicate 65 0) ++ List.replicate 32 0) [1, 2, 3]
    ∧ (8 * (List.replicate 65 (0 : Nat)).length < 2 ^ 64 →
        hmac_sha256 (List.replicate 65 0) [1, 2, 3] =
          hmac_sha256 (sha256Bytes (List.replicate 65 0) ++ List.replicate 32 0) [1, 2, 3]) :=
  long_key_equivalence (List.replicate 65 0) [1, 2, 3] (by decide)

/-- C9: `sha256` and `hmac_sha256` fail, with `InputTooLarge` and no
partial result, exactly when a hashed message's bit length cannot be
represented in 64 bits; on every other input — the empty key and empty
message included — they succeed. -/
theorem error_handling_exact (key text msg : List Nat) :
    (sha256 msg = Except.ok (sha256Bytes msg) ↔ 8 * msg.length < 2 ^ 64)
    ∧ (sha256 msg = Except.error HmacError.InputTooLarge ↔ 2 ^ 64 ≤ 8 * msg.length)
    ∧ (hmac_sha256 key text = Except.ok (hmacBytes key text) ↔
        8 * key.length < 2 ^ 64 ∧ 8 * (64 + text.length) < 2 ^ 64)
    ∧ (hmac_sha256 key text = Except.error HmacError.InputTooLarge ↔
        ¬(8 * key.length < 2 ^ 64 ∧ 8 * (64 + text.length) < 2 ^ 64))
    ∧ sha256 [] = Except.ok (sha256Bytes [])
    ∧ hmac_sha256 [] [] = Except.ok (hmacBytes [] []) := by
  refine ⟨?_, ?_, ?_, ?_, ?_, ?_⟩
  · by_cases h : 8 * msg.length < 2 ^ 64
    · simp [sha256_eq_ok msg h]
      omega
    · simp [sha256_eq_err msg h]
      omega
  · by_cases h : 8 * msg.length < 2 ^ 64
    · simp [sha256_eq_ok msg h]
      omega
    · simp [sha256_eq_err msg h]
      omega
  · rw [hmac_sha256_eq]
    by_cases hc : 8 * key.length < 2 ^ 64 ∧ 8 * (64 + text.length) < 2 ^ 64
    · simp [hc]
    · simp [hc]
  · rw [hmac_sha256_eq]
    by_cases hc : 8 * key.length < 2 ^ 64 ∧ 8 * (64 + text.length) < 2 ^ 64
    · simp [hc]
    · simp [hc]
  · exact sha256_eq_ok [] (by norm_num)
  · rw [hmac_sha256_eq]
    rw [if_pos ⟨by norm_num, by norm_num⟩]

/-- A number at least 2 with no divisor `d` satisfying `2 ≤ d < p` is
prime (kernel-friendly primality by trial division). -/
theorem prime_of_no_small_divisor (p : Nat) (h2 : 2 ≤ p)
    (h : ∀ d, d < p → 2 ≤ d → p % d ≠ 0) : Nat.Prime p := by
  rw [Nat.prime_def_lt]
  refine ⟨h2, fun m hm hdvd => ?_⟩
  rcases Nat.eq_zero_or_pos m with rfl | hpos
  · have := Nat.eq_zero_of_zero_dvd hdvd
    omega
  · by_contra hne
    have h2m : 2 ≤ m := by omega
    exact h m hm h2m (Nat.mod_eq_zero_of_dvd hdvd)

/-- C10: the round-constant table `k` holds exactly the 64 FIPS 180-4
constants `0x428A2F98, ..., 0xC67178F2` in standard order, and the
initial-hash table `h` exactly `0x6a09e667, ..., 0x5be0cd19`; in this
embedding both are top-level immutable definitions (in the source both
are non-mutable `let` bindings, so no call can mutate them).  The tables'
FIPS pedigree is stated exactly: entry `i` of `k` is the first 32 bits of
the fractional part of the cube root of the `i`-th prime, entry `i` of
`h` likewise for the square root. -/
theorem round_constant_tables :
    kRound =
      [0x428A2F98, 0x71374491, 0xB5C0FBCF, 0xE9B5DBA5, 0x3956C25B, 0x59F111F1, 0x923F82A4, 0xAB1C5ED5,
       0xD807AA98, 0x12835B01, 0x243185BE, 0x550C7DC3, 0x72BE5D74, 0x80DEB1FE, 0x9BDC06A7, 0xC19BF174,
       0xE49B69C1, 0xEFBE4786, 0x0FC19DC6, 0x240CA1CC, 0x2DE92C6F, 0x4A7484AA, 0x5CB0A9DC, 0x76F988DA,
       0x983E5152, 0xA831C66D, 0xB00327C8, 0xBF597FC7, 0xC6E00BF3, 0xD5A79147, 0x06CA6351, 0x14292967,
       0x27B70A85, 0x2E1B2138, 0x4D2C6DFC, 0x53380D13, 0x650A7354, 0x766A0ABB, 0x81C2C92E, 0x92722C85,
       0xA2BFE8A1, 0xA81A664B, 0xC24B8B70, 0xC76C51A3, 0xD192E819, 0xD6990624, 0xF40E3585, 0x106AA070,
       0x19A4C116, 0x1E376C08, 0x2748774C, 0x34B0BCB5, 0x391C0CB3, 0x4ED8AA4A, 0x5B9CCA4F, 0x682E6FF3,
       0x748F82EE, 0x78A5636F, 0x84C87814, 0x8CC70208, 0x90BEFFFA, 0xA4506CEB, 0xBEF9A3F7, 0xC67178F2]
    ∧ hInit =
      [0x6a09e667, 0xbb67ae85, 0x3c6ef372, 0xa54ff53a,
       0x510e527f, 0x9b05688c, 0x1f83d9ab, 0x5be0cd19]
    ∧ kRound.length = 64
    ∧ hInit.length = 8
    ∧ (∀ i, i < 64 → ∃ c, c < 7 ∧
        (c * 2 ^ 32 + kRound.getD i 0) ^ 3 ≤ first64Primes.getD i 0 * 2 ^ 96 ∧
        first64Primes.getD i 0 * 2 ^ 96 < (c * 2 ^ 32 + kRound.getD i 0 + 1) ^ 3)
    ∧ (∀ i, i < 8 → ∃ c, c < 5 ∧
        (c * 2 ^ 32 + hInit.getD i 0) ^ 2 ≤ first64Primes.getD i 0 * 2 ^ 64 ∧
        first64Primes.getD i 0 * 2 ^ 64 < (c * 2 ^ 32 + hInit.getD i 0 + 1) ^ 2)
    ∧ (∀ i, i < 63 → first64Primes.getD i 0 < first64Primes.getD (i + 1) 0)
    ∧ (∀ p ∈ first64Primes, Nat.Prime p)
    ∧ (∀ n, n < 312 → Nat.Prime n → n ∈ first64Primes) := by
  refine ⟨rfl, rfl, rfl, rfl, by decide, by decide, by decide, ?_, ?_⟩
  · have h : ∀ p ∈ first64Primes, 2 ≤ p ∧ ∀ d, d < p → 2 ≤ d → p % d ≠ 0 := by decide
    intro p hp
    exact prime_of_no_small_divisor p (h p hp).1 (h p hp).2
  · have h : ∀ n, n < 312 → ¬n ∈ first64Primes →
        n < 2 ∨ ∃ d, d < n ∧ 2 ≤ d ∧ n % d = 0 := by decide
    intro n hn hp
    by_contra hmem
    rcases h n hn hmem with h2 | ⟨d, hdlt, hd2, hdmod⟩
    · exact absurd hp.two_le (by omega)
    · have hdvd : d ∣ n := Nat.dvd_of_mod_eq_zero hdmod
      rcases Nat.Prime.eq_one_or_self_of_dvd hp d hdvd with h1 | hself
      · omega
      · omega

end HmacSha256
